import Mathlib

/-!
# Verification of the PKM search-query engine (`SearchParser`)

Shallow embedding of the TypeScript class `SearchParser` (parse / filter /
highlight / getSuggestions / validateQuery) together with the `ContentItem`
record type it operates on.  JavaScript strings are modelled as Lean
`String` / `List Char`; the regular expressions used by the source are
modelled by hand-rolled deterministic scanners that reproduce the
backtracking behaviour of the concrete patterns (each pattern is simple
enough that its JS matching behaviour is deterministic, as argued in the
doc comment of each scanner).  `undefined`-able members are modelled with
`Option`.  Bounded recursion over strings is expressed with an explicit
fuel argument; every scanner consumes at least one character per step, so
the fuel `length + 1` supplied by the wrappers is never exhausted.
-/

set_option linter.unusedVariables false

namespace PKM

/-- JS whitespace (`\s`) restricted to the ASCII whitespace characters that
`String.trim` also uses: space, tab, carriage return, newline. -/
def isWs (c : Char) : Bool :=
  c = ' ' || c = '\t' || c = '\r' || c = '\n'

/-- JS word character class `\w` = `[A-Za-z0-9_]`. -/
def isWordChar (c : Char) : Bool :=
  c.isAlphanum || c = '_'

/-- The comparison characters of the date-clause pattern `[><=!]`. -/
def isOpChar (c : Char) : Bool :=
  c = '>' || c = '<' || c = '=' || c = '!'

/-- Lower-casing of a character, modelling `String.prototype.toLowerCase`
(ASCII fragment). -/
def lc (c : Char) : Char := c.toLower

/-- Lower-casing of a character list. -/
def lcL (cs : List Char) : List Char := cs.map lc

/-- Lower-casing of a string, modelling `s.toLowerCase()`. -/
def lower (s : String) : String := String.mk (lcL s.data)

/-- Substring containment on character lists, modelling
`hay.includes(needle)`. -/
def containsSub (hay needle : List Char) : Bool :=
  if needle.isPrefixOf hay then true
  else
    match hay with
    | [] => false
    | _ :: t => containsSub t needle

/-- `hay.toLowerCase().includes(needle.toLowerCase())`, the case-insensitive
containment test used throughout `filter`. -/
def iContains (hay needle : String) : Bool :=
  containsSub (lcL hay.data) (lcL needle.data)

/-- `String.prototype.trim` on character lists: drop whitespace from both
ends. -/
def trimChars (cs : List Char) : List Char :=
  ((cs.dropWhile isWs).reverse.dropWhile isWs).reverse

/-- `s.trim()`. -/
def jsTrim (s : String) : String := String.mk (trimChars s.data)

/-- One pass of `replace(/\s+/g, ' ')`: every maximal whitespace run is
replaced by a single space.  `prevWs` records whether the previous character
belonged to a whitespace run already rewritten. -/
def collapseGo (prevWs : Bool) : List Char → List Char
  | [] => []
  | c :: rest =>
    if isWs c then
      if prevWs then collapseGo true rest
      else ' ' :: collapseGo true rest
    else c :: collapseGo false rest

/-- `query.trim().replace(/\s+/g, ' ')` — the normalisation performed at the
top of `SearchParser.parse`. -/
def normalize (q : String) : String :=
  String.mk (collapseGo false (trimChars q.data))

/-- Remove the first occurrence of `pat` from `cs`, modelling
`s.replace(pat, '')` with a *string* pattern (which replaces only the first
occurrence). -/
def replaceFirstL (cs pat : List Char) : List Char :=
  if pat.isPrefixOf cs then cs.drop pat.length
  else
    match cs with
    | [] => []
    | c :: t => c :: replaceFirstL t pat

/-- `s.replace(pat, '')` for a plain-string pattern. -/
def replaceFirst (s pat : String) : String :=
  String.mk (replaceFirstL s.data pat.data)

/-- `value.replace(/^["']|["']$/g, '')`: one leading and one trailing quote
character (double or single) are removed, each independently if present.
On the one-character string `"` only the leading rule fires (the regex
scanner is already past the end after consuming it), which the
`s₁ = ""` guard reproduces. -/
def stripQuotes (s : String) : String :=
  let cs := s.data
  let cs₁ := match cs with
    | c :: t => if c = '"' || c = '\'' then t else cs
    | [] => []
  let cs₂ :=
    if cs₁ ≠ [] ∧ (cs₁.getLast? = some '"' ∨ cs₁.getLast? = some '\'') then
      cs₁.dropLast
    else cs₁
  String.mk cs₂

/-- First-occurrence deduplication, modelling `[...new Set(xs)]` (JS `Set`
iterates in insertion order). `seen` accumulates the values already
emitted. -/
def uniqueFirstGo (seen : List String) : List String → List String
  | [] => []
  | a :: l =>
    if a ∈ seen then uniqueFirstGo seen l
    else a :: uniqueFirstGo (a :: seen) l

/-- `[...new Set(xs)]`. -/
def uniqueFirst (l : List String) : List String := uniqueFirstGo [] l

/-! ## Data model

The TypeScript interfaces `ParsedQuery` and `ContentItem`. -/

/-- A value in the `fields` map of a `ParsedQuery`:
`string | string[]` in the source. -/
inductive FieldVal where
  | str (s : String)
  | arr (l : List String)
  deriving DecidableEq, Repr

/-- One entry of `ParsedQuery.dateFilters`.  The source narrows `field` to
`'created' | 'updated'` and `operator` to `'>' | '<' | '>=' | '<=' | '='`
by type asserts (`as any`); since the assert is unchecked, both are
modelled as plain strings — `filter`'s `switch` ignores any other
operator. -/
structure DateFilter where
  field : String
  operator : String
  value : String
  deriving DecidableEq, Repr

/-- The `ParsedQuery` interface.  `fields` is a JS object used as a
string-keyed map; it is modelled as an association list in key-insertion
order (JS objects preserve insertion order of string keys, and an
overwrite keeps the original position).  `fullText?` and `dateFilters?`
are optional members, hence `Option`. -/
structure ParsedQuery where
  fields : List (String × FieldVal)
  operators : List String
  fullText : Option String
  dateFilters : Option (List DateFilter)
  deriving DecidableEq, Repr

/-- The `ContentItem` interface, restricted to the members the search
engine reads (`title`, `contentType`, `content?`, `tags`, `createdAt`,
`updatedAt`) plus `id`/`userId`.  The remaining members (`fileUrl?`,
`fileSize?`, `mimeType?`, `collectionId?`, `metadata?`) are never
consulted by `SearchParser` and are elided. -/
structure ContentItem where
  id : String
  userId : String
  title : String
  contentType : String
  content : Option String
  tags : List String
  createdAt : String
  updatedAt : String
  deriving DecidableEq, Repr

/-! ## The field-clause scanner

Model of `normalizedQuery.match(/(\w+):\s*([^\s]+(?:\s+[^\s:]+)*?)(?=\s+\w+:|$)/g)`.

For this particular pattern the JS backtracking search is deterministic:

* `(\w+):` — `\w+` is greedy and a shorter run would leave a word
  character where `:` is required, so the word run is exactly maximal.
* `\s*` — `[^\s]+` cannot consume a space, so the space run is maximal.
* `([^\s]+ …)` — stopping the first run early leaves a non-space
  character at the position where both the lookahead (`\s+…` or `$`) and
  the lazy repetition (`\s+…`) require a space or the end, so the run is
  exactly maximal; the same argument applies to each `[^\s:]+` run of the
  lazy group.
* the lazy group therefore either stops at a position where the lookahead
  `(?=\s+\w+:|$)` succeeds, or eats exactly one more `\s+[^\s:]+` block,
  or the whole attempt fails.

`valueLoop rest` returns the number of further characters consumed after
the first `[^\s]+` run (`none` = the whole match attempt fails). -/

/-- The lookahead `(?=\s+\w+:|$)`. -/
def lookaheadOk (rest : List Char) : Bool :=
  match rest with
  | [] => true
  | c :: _ =>
    isWs c &&
      (let r := rest.dropWhile isWs
       let w := r.takeWhile isWordChar
       !w.isEmpty && ((r.drop w.length).head? = some ':'))

/-- The lazy repetition `(?:\s+[^\s:]+)*?` followed by the lookahead.
Each iteration consumes at least two characters, so fuel `rest.length + 1`
suffices. -/
def valueLoop (fuel : Nat) (rest : List Char) : Option Nat :=
  match fuel with
  | 0 => none
  | fuel + 1 =>
    match rest with
    | [] => some 0
    | c :: _ =>
      if lookaheadOk rest then some 0
      else if isWs c then
        let sp := rest.takeWhile isWs
        let r := rest.drop sp.length
        let t := r.takeWhile (fun c => !isWs c && c ≠ ':')
        if t.isEmpty then none
        else
          match valueLoop fuel (r.drop t.length) with
          | some d => some (sp.length + t.length + d)
          | none => none
      else none

/-- Attempt to match the field-clause pattern at the start of `cs`;
returns the length of the match. -/
def fieldMatch (cs : List Char) : Option Nat :=
  let w := cs.takeWhile isWordChar
  if w.isEmpty then none
  else
    match (cs.drop w.length).head? with
    | some ':' =>
      let afterColon := cs.drop (w.length + 1)
      let sp := afterColon.takeWhile isWs
      let v1 := (afterColon.drop sp.length).takeWhile (fun c => !isWs c)
      if v1.isEmpty then none
      else
        match valueLoop (afterColon.length + 1)
            ((afterColon.drop sp.length).drop v1.length) with
        | some d => some (w.length + 1 + sp.length + v1.length + d)
        | none => none
    | _ => none

/-- The global scan of the field-clause pattern: try each start position
left to right, and continue after the end of each match (every match is
non-empty).  Fuel `cs.length + 1` suffices since every step consumes at
least one character. -/
def scanFields (fuel : Nat) (cs : List Char) : List (List Char) :=
  match fuel with
  | 0 => []
  | fuel + 1 =>
    match cs with
    | [] => []
    | c :: rest =>
      match fieldMatch (c :: rest) with
      | some n => (c :: rest).take n :: scanFields fuel ((c :: rest).drop n)
      | none => scanFields fuel rest

/-! ## The connective scanner

Model of `/\b(AND|OR|NOT)\b/gi` (both `match` and `replace` scan the same
way).  The three keywords start with distinct letters, so the alternation
is deterministic; each keyword starts and ends with a word character, so
the leading `\b` holds iff the previous character is absent or a non-word
character, and the trailing `\b` holds iff the next character is absent or
a non-word character. -/

/-- Attempt to match `\b(AND|OR|NOT)\b` (case-insensitive) at the start of
`cs`, where `prevWord` says whether the character before `cs` is a word
character; returns the length of the keyword matched. -/
def connAt (prevWord : Bool) (cs : List Char) : Option Nat :=
  if prevWord then none
  else
    let boundaryAfter (n : Nat) : Bool :=
      match (cs.drop n).head? with
      | none => true
      | some c => !isWordChar c
    if lcL (cs.take 3) = ['a', 'n', 'd'] && boundaryAfter 3 then some 3
    else if lcL (cs.take 2) = ['o', 'r'] && boundaryAfter 2 then some 2
    else if lcL (cs.take 3) = ['n', 'o', 't'] && boundaryAfter 3 then some 3
    else none

/-- Split `cs` into chunks, marking the connective matches (`true`) and the
remaining characters (`false`, one chunk per character).  `match` collects
the `true` chunks, `replace(.., '')` keeps the `false` chunks. -/
def connChunks (fuel : Nat) (prevWord : Bool) (cs : List Char) :
    List (List Char × Bool) :=
  match fuel with
  | 0 => []
  | fuel + 1 =>
    match cs with
    | [] => []
    | c :: rest =>
      match connAt prevWord cs with
      | some n => (cs.take n, true) :: connChunks fuel true (cs.drop n)
      | none => ([c], false) :: connChunks fuel (isWordChar c) rest

/-! ## The clause classifier -/

/-- Model of `value.match(/([><=!]+)(.+)/)`, returning the two capture
groups.  The regex is unanchored, so the match starts at the first
comparison character; the first group is the maximal run of comparison
characters from there, backtracking by exactly one character when the run
extends to the end of the string (the `(.+)` group needs at least one
character). -/
def dateMatchFn : List Char → Option (List Char × List Char)
  | [] => none
  | c :: rest =>
    if isOpChar c then
      let r := (c :: rest).takeWhile isOpChar
      let after := (c :: rest).drop r.length
      if !after.isEmpty then some (r, after)
      else if 2 ≤ r.length then some (r.dropLast, r.drop (r.length - 1))
      else none
    else dateMatchFn rest

/-- `result.fields[field] = value` on a JS object: an existing key keeps
its position, a new key is appended. -/
def setField (fields : List (String × FieldVal)) (k : String) (v : FieldVal) :
    List (String × FieldVal) :=
  match fields with
  | [] => [(k, v)]
  | (k', v') :: t =>
    if k' = k then (k', v) :: t else (k', v') :: setField t k v

/-- `match.substring(0, colonIndex).trim()` — the field name of an
extracted clause (`colonIndex` is the first `:`, which every match
contains). -/
def clauseField (m : String) : String :=
  jsTrim (String.mk (m.data.take (m.data.indexOf ':')))

/-- `match.substring(colonIndex + 1).trim()` followed by the quote
stripping — the value of an extracted clause. -/
def clauseValue (m : String) : String :=
  stripQuotes (jsTrim (String.mk (m.data.drop (m.data.indexOf ':' + 1))))

/-- The body of the `fieldMatches.forEach` classifier in
`SearchParser.parse`: route one extracted clause into the field map or the
date-filter list. -/
def classifyMatch (acc : List (String × FieldVal) × List DateFilter)
    (m : String) : List (String × FieldVal) × List DateFilter :=
  let field := clauseField m
  let value := clauseValue m
  if field = "created" ∨ field = "updated" then
    match dateMatchFn value.data with
    | some (op, rest) =>
      (acc.1, acc.2 ++ [⟨field, String.mk op, jsTrim (String.mk rest)⟩])
    | none => acc
  else if field = "tags" then
    if value.data.contains ',' then
      (setField acc.1 field (.arr ((value.splitOn ",").map jsTrim)), acc.2)
    else
      (setField acc.1 field (.str value), acc.2)
  else
    (setField acc.1 field (.str value), acc.2)

/-- The `fieldMatches`-non-null branch of `SearchParser.parse`: classify
the matches, strip them from the normalised query, extract and strip the
connectives, and keep the trimmed residue as `fullText` when non-empty.
`nq` is the normalised query, `ms` the list of matched clause strings. -/
def parseRest (nq : String) (ms : List String) : ParsedQuery :=
  let fd := ms.foldl classifyMatch ([], [])
  let remaining := ms.foldl (fun r m => replaceFirst r m) nq
  let chunks := connChunks (remaining.data.length + 1) false remaining.data
  let conns := (chunks.filter (·.2)).map (fun p => String.mk p.1)
  let opsAndRem :=
    if conns.isEmpty then (([] : List String), remaining)
    else
      (conns.map (fun s => String.mk (s.data.map Char.toUpper)),
       jsTrim (String.mk (((chunks.filter (fun p => !p.2)).map (·.1)).flatten)))
  let ft := jsTrim opsAndRem.2
  { fields := fd.1, operators := opsAndRem.1,
    fullText := if ft ≠ "" then some ft else none,
    dateFilters := some fd.2 }

/-- `SearchParser.parse`. -/
def parse (query : String) : ParsedQuery :=
  let nq := normalize query
  let ms := scanFields (nq.data.length + 1) nq.data
  if ms.isEmpty then
    { fields := [], operators := [], fullText := some nq, dateFilters := some [] }
  else parseRest nq (ms.map String.mk)

/-! ## JS `Date` model

`new Date(string)` is modelled as `Option Int` (epoch milliseconds;
`none` = *Invalid Date*).  The parser accepts the ECMAScript Date Time
String Format subset `YYYY[-MM[-DD[THH:mm[:ss[.sss]][Z]]]]` — the one
format the specification guarantees — and is invalid on anything else
(per spec, other inputs are implementation-defined).  Date-time strings
without a `Z` designate local time; the host timezone is taken to be UTC,
so `toDateString` equality becomes equality of UTC day numbers. -/

/-- Proleptic-Gregorian leap year. -/
def isLeap (y : Int) : Bool :=
  y % 4 = 0 && (y % 100 ≠ 0 || y % 400 = 0)

/-- Length of month `m` (1-based) of year `y`. -/
def daysInMonth (y : Int) (m : Nat) : Nat :=
  if m = 2 then (if isLeap y then 29 else 28)
  else if m = 4 ∨ m = 6 ∨ m = 9 ∨ m = 11 then 30
  else 31

/-- Days since 1970-01-01 of the civil date `y-m-d`
(Howard Hinnant's `days_from_civil`, written with truncating division as
in its C++ original; the `y' - 399` adjustment makes the quotients agree
with the intended values for negative years as well). -/
def daysFromCivil (y : Int) (m d : Nat) : Int :=
  let y' : Int := if m ≤ 2 then y - 1 else y
  let era : Int := Int.tdiv (if 0 ≤ y' then y' else y' - 399) 400
  let yoe : Int := y' - era * 400
  let mp : Int := (m : Int) + (if 2 < m then -3 else 9)
  let doy : Int := Int.tdiv (153 * mp + 2) 5 + (d : Int) - 1
  let doe : Int := yoe * 365 + Int.tdiv yoe 4 - Int.tdiv yoe 100 + doy
  era * 146097 + doe - 719468

/-- Epoch milliseconds of a broken-down UTC timestamp, validating the
component ranges as the ECMAScript format requires (`24` is a legal hour
only for the exact instant `24:00:00.000`). -/
def epochMs (y : Int) (m d h mi ss ms : Nat) : Option Int :=
  if 1 ≤ m ∧ m ≤ 12 ∧ 1 ≤ d ∧ d ≤ daysInMonth y m ∧
      (h ≤ 23 ∨ (h = 24 ∧ mi = 0 ∧ ss = 0 ∧ ms = 0)) ∧ mi ≤ 59 ∧ ss ≤ 59 then
    some (((((daysFromCivil y m d) * 24 + (h : Int)) * 60 + (mi : Int)) * 60
            + (ss : Int)) * 1000 + (ms : Int))
  else none

/-- Decimal value of a digit list. -/
def digitsToNat (cs : List Char) : Nat :=
  cs.foldl (fun a c => a * 10 + (c.toNat - '0'.toNat)) 0

/-- The time-of-day tail of a date-time string, after `THH:mm`:
empty, `Z`, `:ss`, `:ssZ`, `:ss.sss` or `:ss.sssZ`. -/
def parseTimeTail (cs : List Char) : Option (Nat × Nat) :=
  match cs with
  | [] => some (0, 0)
  | ['Z'] => some (0, 0)
  | ':' :: s1 :: s2 :: rest =>
    if s1.isDigit && s2.isDigit then
      let ss := digitsToNat [s1, s2]
      match rest with
      | [] => some (ss, 0)
      | ['Z'] => some (ss, 0)
      | '.' :: f1 :: f2 :: f3 :: rest2 =>
        if f1.isDigit && f2.isDigit && f3.isDigit &&
            (rest2 = [] || rest2 = ['Z']) then
          some (ss, digitsToNat [f1, f2, f3])
        else none
      | _ => none
    else none
  | _ => none

/-- `new Date(s)` for the ECMAScript Date Time String Format subset. -/
def jsDate (s : String) : Option Int :=
  match s.data with
  | y1 :: y2 :: y3 :: y4 :: rest =>
    if [y1, y2, y3, y4].all Char.isDigit then
      let y : Int := (digitsToNat [y1, y2, y3, y4] : Nat)
      match rest with
      | [] => epochMs y 1 1 0 0 0 0
      | '-' :: m1 :: m2 :: rest2 =>
        if m1.isDigit && m2.isDigit then
          let m := digitsToNat [m1, m2]
          match rest2 with
          | [] => epochMs y m 1 0 0 0 0
          | '-' :: d1 :: d2 :: rest3 =>
            if d1.isDigit && d2.isDigit then
              let d := digitsToNat [d1, d2]
              match rest3 with
              | [] => epochMs y m d 0 0 0 0
              | 'T' :: h1 :: h2 :: ':' :: n1 :: n2 :: rest4 =>
                if h1.isDigit && h2.isDigit && n1.isDigit && n2.isDigit then
                  match parseTimeTail rest4 with
                  | some (ss, ms) =>
                    epochMs y m d (digitsToNat [h1, h2]) (digitsToNat [n1, n2])
                      ss ms
                  | none => none
                else none
              | _ => none
            else none
          | _ => none
        else none
      | _ => none
    else none
  | _ => none

/-! ## The filter evaluator -/

/-- One `dateFilters` entry applied to one item.  Relational comparisons
on an *Invalid Date* (`none`) are `NaN` comparisons and yield `false`;
`=` compares `toDateString()` strings, which are both `"Invalid Date"`
when both dates are invalid, and otherwise agree iff the (UTC-modelled)
calendar days agree.  An operator string outside the `switch`'s five
cases leaves `matches` unchanged. -/
def datePred (item : ContentItem) (df : DateFilter) : Bool :=
  let itemDate := jsDate (if df.field = "created" then item.createdAt
                          else item.updatedAt)
  let filterDate := jsDate df.value
  if df.operator = ">" then
    match itemDate, filterDate with
    | some a, some b => decide (b < a)
    | _, _ => false
  else if df.operator = "<" then
    match itemDate, filterDate with
    | some a, some b => decide (a < b)
    | _, _ => false
  else if df.operator = ">=" then
    match itemDate, filterDate with
    | some a, some b => decide (b ≤ a)
    | _, _ => false
  else if df.operator = "<=" then
    match itemDate, filterDate with
    | some a, some b => decide (a ≤ b)
    | _, _ => false
  else if df.operator = "=" then
    match itemDate, filterDate with
    | some a, some b => decide (Int.fdiv a 86400000 = Int.fdiv b 86400000)
    | none, none => true
    | _, _ => false
  else true

/-- One `fields` entry applied to one item — the `switch (field)` of
`SearchParser.filter`.  A field name outside the four cases contributes
no predicate; so does an array value for `title`/`content`/`type`
(`typeof value === 'string'` fails) and a `content` clause on an item
whose `content` is absent or empty (`item.content` is falsy). -/
def fieldEntryPred (item : ContentItem) (field : String) (v : FieldVal) :
    Bool :=
  if field = "title" then
    match v with
    | .str s => iContains item.title s
    | .arr _ => true
  else if field = "content" then
    match v with
    | .str s =>
      match item.content with
      | some c => if c ≠ "" then iContains c s else true
      | none => true
    | .arr _ => true
  else if field = "type" then
    match v with
    | .str s => item.contentType = s
    | .arr _ => true
  else if field = "tags" then
    match v with
    | .str s => item.tags.any (fun tag => iContains tag s)
    | .arr l => l.any (fun vv => item.tags.any (fun tag => iContains tag vv))
  else true

/-- The full-text predicate of `SearchParser.filter`: the lowered query
must occur in the lowered title, or in the lowered content when `content`
is present and non-empty, or in some lowered tag. -/
def fullTextPred (item : ContentItem) (s : String) : Bool :=
  iContains item.title s ||
  (match item.content with
   | some c => c ≠ "" && iContains c s
   | none => false) ||
  item.tags.any (fun tag => iContains tag s)

/-- The per-item body of `SearchParser.filter`: `matches` starts `true`
and is `&&`-folded over the field entries, then over the date filters
(`dateFilters?.forEach` — skipped when the member is absent), then the
full-text predicate is applied when `fullText` is present and non-empty
(`if (parsedQuery.fullText)`). -/
def itemMatches (q : ParsedQuery) (item : ContentItem) : Bool :=
  let m1 := q.fields.foldl (fun m fv => m && fieldEntryPred item fv.1 fv.2) true
  let m2 := (q.dateFilters.getD []).foldl (fun m df => m && datePred item df) m1
  match q.fullText with
  | some s => if s ≠ "" then m2 && fullTextPred item s else m2
  | none => m2

/-- `SearchParser.filter`: `items.filter(item => …)`. -/
def filter (items : List ContentItem) (q : ParsedQuery) : List ContentItem :=
  items.filter (fun item => itemMatches q item)

/-! ## The highlighter -/

/-- The presentational marker the source wraps matches in. -/
def markOpen : String := "<mark class=\"bg-yellow-200 dark:bg-yellow-800\">"

/-- Closing tag of the marker. -/
def markClose : String := "</mark>"

/-- Split `cs` into chunks for the global case-insensitive literal match
of `term` (the escaping in the source makes the built regex match `term`
literally): at each position, a chunk of length `term.length` whose
lower-casing equals the lowered `term` is a match (`true`), otherwise one
character of plain text (`false`).  This reproduces the leftmost,
non-overlapping scan of `String.prototype.replace` with a `g` regex. -/
def hlChunks (fuel : Nat) (term cs : List Char) : List (List Char × Bool) :=
  match fuel with
  | 0 => []
  | fuel + 1 =>
    match cs with
    | [] => []
    | c :: rest =>
      if !term.isEmpty && lcL (cs.take term.length) = lcL term then
        (cs.take term.length, true) :: hlChunks fuel term (cs.drop term.length)
      else
        ([c], false) :: hlChunks fuel term rest

/-- Render one chunk: a match is wrapped in the marker (`$1` preserves the
original casing), plain text is kept verbatim. -/
def renderChunk (p : List Char × Bool) : List Char :=
  if p.2 then markOpen.data ++ p.1 ++ markClose.data else p.1

/-- `SearchParser.highlight`. -/
def highlight (text query : String) : String :=
  if query = "" then text
  else
    String.mk
      (((hlChunks (text.data.length + 1) query.data text.data).map
          renderChunk).flatten)

/-! ## The suggestion generator -/

mutual
/-- `String.prototype.split(/\s+/)` — inside a token (`curr` holds its
characters reversed). -/
def splitTok (curr : List Char) : List Char → List String
  | [] => [String.mk curr.reverse]
  | c :: rest =>
    if isWs c then String.mk curr.reverse :: splitSep rest
    else splitTok (c :: curr) rest

/-- `String.prototype.split(/\s+/)` — inside a separator run (a maximal
whitespace run is a single separator; a separator touching the end of the
string leaves a trailing empty token, as in JS). -/
def splitSep : List Char → List String
  | [] => [""]
  | c :: rest =>
    if isWs c then splitSep rest
    else splitTok [c] rest
end

/-- `query.split(/\s+/)`.  JS yields a leading empty string when the query
starts with whitespace and a trailing empty string when it ends with
whitespace; `''.split(/\s+/)` is `['']`. -/
def jsSplitWs (s : String) : List String := splitTok [] s.data

/-- `SearchParser.getSuggestions`.  The three `forEach` push loops are
folds onto the end of the `suggestions` array. -/
def getSuggestions (query : String) (items : List ContentItem) :
    List String :=
  let lastWord := lower ((jsSplitWs query).getLast?.getD "")
  if lastWord.length < 2 then []
  else
    let uniqueTitles := uniqueFirst (items.map (·.title))
    let uniqueTags := uniqueFirst ((items.map (·.tags)).flatten)
    let uniqueTypes := uniqueFirst (items.map (·.contentType))
    let s1 := uniqueTitles.foldl
      (fun acc title =>
        if containsSub (lcL title.data) lastWord.data then
          acc ++ ["title:\"" ++ title ++ "\""]
        else acc) []
    let s2 := uniqueTags.foldl
      (fun acc tag =>
        if containsSub (lcL tag.data) lastWord.data then
          acc ++ ["tags:" ++ tag]
        else acc) s1
    let s3 := uniqueTypes.foldl
      (fun acc ty =>
        if containsSub (lcL ty.data) lastWord.data then
          acc ++ ["type:" ++ ty]
        else acc) s2
    s3.take 10

/-! ## The validator -/

/-- The global scan of `/(\w+):/g` over the *raw* query string: a maximal
word run immediately followed by `:`; the scan continues after the
colon.  Returns the matched substrings (word plus colon). -/
def scanColon (fuel : Nat) (cs : List Char) : List String :=
  match fuel with
  | 0 => []
  | fuel + 1 =>
    match cs with
    | [] => []
    | c :: rest =>
      let w := (c :: rest).takeWhile isWordChar
      if !w.isEmpty && ((c :: rest).drop w.length).head? = some ':' then
        String.mk (w ++ [':']) ::
          scanColon fuel ((c :: rest).drop (w.length + 1))
      else scanColon fuel rest

/-- The allowed field names of `validateQuery`. -/
def validFields : List String :=
  ["title", "content", "tags", "type", "created", "updated"]

/-- `fieldMatches.map(m => m.replace(':', '')).filter(f => !validFields.includes(f))`
— the offending field names, in match order, *not* deduplicated. -/
def invalidFieldsOf (query : String) : List String :=
  ((scanColon (query.data.length + 1) query.data).map
      (fun m => replaceFirst m ":")).filter
    (fun f => !validFields.contains f)

/-- `SearchParser.validateQuery`, returning `(isValid, error?)`.  The
`try`/`catch` wrapper is dead code (nothing inside throws) and is not
modelled. -/
def validateQuery (query : String) : Bool × Option String :=
  if jsTrim query = "" then (false, some "Query cannot be empty")
  else if (query.data.filter (fun c => c = '"')).length % 2 ≠ 0 then
    (false, some "Unmatched quotes in query")
  else
    let invalid := invalidFieldsOf query
    if !invalid.isEmpty then
      (false,
       some ("Invalid field(s): " ++ String.intercalate ", " invalid ++
             ". Valid fields: " ++ String.intercalate ", " validFields))
    else (true, none)

/-! ## Specification-side definitions

These do not model source code; they restate parts of the specification's
claims so that the theorems below can compare the code model against
them. -/

/-- The evaluator semantics as the specification words them: a record is
kept iff the *conjunction* of every active predicate is true — one
(possibly trivial) predicate per `fields` entry, one per `dateFilters`
entry, and the full-text predicate when `fullText` is present and
non-empty. -/
def itemMatchesSpec (q : ParsedQuery) (item : ContentItem) : Bool :=
  q.fields.all (fun fv => fieldEntryPred item fv.1 fv.2) &&
  (q.dateFilters.getD []).all (fun df => datePred item df) &&
  (match q.fullText with
   | some s => if s ≠ "" then fullTextPred item s else true
   | none => true)

/-- The `UnknownField` message as the *specification* describes it: the
offending field names deduplicated in first-occurrence order, followed by
the allowed set. -/
def claimMsgDedup (query : String) : String :=
  "Invalid field(s): " ++
    String.intercalate ", " (uniqueFirst (invalidFieldsOf query)) ++
    ". Valid fields: " ++ String.intercalate ", " validFields

/-- The title-suggestion group: the distinct titles (first occurrence
first) whose lower-casing contains `lastWord`, formatted
`title:"<title>"`. -/
def titleSuggs (lastWord : String) (items : List ContentItem) :
    List String :=
  ((uniqueFirst (items.map (·.title))).filter
      (fun t => containsSub (lcL t.data) lastWord.data)).map
    (fun t => "title:\"" ++ t ++ "\"")

/-- The tag-suggestion group, formatted `tags:<tag>`. -/
def tagSuggs (lastWord : String) (items : List ContentItem) : List String :=
  ((uniqueFirst ((items.map (·.tags)).flatten)).filter
      (fun t => containsSub (lcL t.data) lastWord.data)).map
    (fun t => "tags:" ++ t)

/-- The type-suggestion group, formatted `type:<type>`. -/
def typeSuggs (lastWord : String) (items : List ContentItem) :
    List String :=
  ((uniqueFirst (items.map (·.contentType))).filter
      (fun t => containsSub (lcL t.data) lastWord.data)).map
    (fun t => "type:" ++ t)

/-- A sample record collection (shape of the mock data of the surrounding
application), used by the concrete witnesses below.  `item₁` has no
`content`. -/
def item₁ : ContentItem :=
  { id := "1", userId := "u", title := "React Best Practices",
    contentType := "note", content := none,
    tags := ["react", "frontend"],
    createdAt := "2024-01-15T10:30:00Z", updatedAt := "2024-01-15T10:30:00Z" }

/-- Second sample record; it has a `content` body. -/
def item₂ : ContentItem :=
  { id := "2", userId := "u", title := "Design Docs",
    contentType := "document", content := some "All the design documents",
    tags := ["design"],
    createdAt := "2024-01-14T14:20:00Z", updatedAt := "2024-01-14T14:20:00Z" }

/-! ## Helper lemmas -/

/-- `matches = matches && p x` folded over a list is the initial value
conjoined with `List.all`. -/
theorem foldl_and_eq_all {α : Type} (p : α → Bool) :
    ∀ (l : List α) (b : Bool),
      l.foldl (fun m x => m && p x) b = (b && l.all p) := by
  intro l
  induction l with
  | nil => intro b; simp
  | cons a t ih =>
    intro b
    simp only [List.foldl_cons, List.all_cons, ih, Bool.and_assoc]

/-- `List.filter` is idempotent. -/
theorem filter_idem {α : Type} (p : α → Bool) :
    ∀ l : List α, (l.filter p).filter p = l.filter p := by
  intro l
  induction l with
  | nil => rfl
  | cons a t ih =>
    by_cases h : p a = true
    · simp [List.filter_cons, h, ih]
    · simp [List.filter_cons, h, ih]

/-- Entries discarded by `f` that satisfy `p` anyway do not change
`List.all`. -/
theorem all_of_filter {α : Type} (p f : α → Bool) :
    ∀ l : List α, (∀ x ∈ l, f x = false → p x = true) →
      l.all p = (l.filter f).all p := by
  intro l
  induction l with
  | nil => intro _; rfl
  | cons a t ih =>
    intro h
    by_cases hf : f a = true
    · simp [List.filter_cons, hf, List.all_cons,
        ih (fun x hx => h x (List.mem_cons_of_mem a hx))]
    · have hfa : f a = false := by simpa using hf
      have hpa : p a = true := h a (List.mem_cons_self a t) hfa
      simp [List.filter_cons, hfa, List.all_cons, hpa,
        ih (fun x hx => h x (List.mem_cons_of_mem a hx))]

/-- A push-style `forEach` loop is `filter`-then-`map` appended to the
accumulator. -/
theorem push_fold {α β : Type} (p : α → Bool) (f : α → β) :
    ∀ (l : List α) (acc : List β),
      l.foldl (fun acc x => if p x then acc ++ [f x] else acc) acc =
        acc ++ (l.filter p).map f := by
  intro l
  induction l with
  | nil => intro acc; simp
  | cons a t ih =>
    intro acc
    by_cases h : p a = true
    · simp [List.foldl_cons, h, ih, List.filter_cons]
    · simp [List.foldl_cons, h, ih, List.filter_cons]

/-- `uniqueFirstGo` keeps a subsequence of its input. -/
theorem uniqueFirstGo_sublist :
    ∀ (l : List String) (seen : List String),
      (uniqueFirstGo seen l).Sublist l := by
  intro l
  induction l with
  | nil => intro seen; simp [uniqueFirstGo]
  | cons a t ih =>
    intro seen
    by_cases h : a ∈ seen
    · simpa [uniqueFirstGo, h] using (ih seen).cons a
    · simpa [uniqueFirstGo, h] using (ih (a :: seen)).cons₂ a

/-- Every element emitted by `uniqueFirstGo` avoids `seen`. -/
theorem uniqueFirstGo_not_seen :
    ∀ (l : List String) (seen : List String) (x : String),
      x ∈ uniqueFirstGo seen l → x ∉ seen := by
  intro l
  induction l with
  | nil => intro seen x hx; simp [uniqueFirstGo] at hx
  | cons a t ih =>
    intro seen x hx
    by_cases h : a ∈ seen
    · exact ih seen x (by simpa [uniqueFirstGo, h] using hx)
    · rw [uniqueFirstGo, if_neg h] at hx
      rcases List.mem_cons.mp hx with rfl | hx'
      · exact h
      · intro hseen
        exact ih (a :: seen) x hx' (List.mem_cons_of_mem a hseen)

/-- `uniqueFirstGo` emits no duplicates. -/
theorem uniqueFirstGo_nodup :
    ∀ (l : List String) (seen : List String),
      (uniqueFirstGo seen l).Nodup := by
  intro l
  induction l with
  | nil => intro seen; simp [uniqueFirstGo]
  | cons a t ih =>
    intro seen
    by_cases h : a ∈ seen
    · simpa [uniqueFirstGo, h] using ih seen
    · rw [uniqueFirstGo, if_neg h]
      refine List.nodup_cons.mpr ⟨?_, ih (a :: seen)⟩
      intro hmem
      exact uniqueFirstGo_not_seen t (a :: seen) a hmem
        (List.mem_cons_self a seen)

/-- With enough fuel, concatenating the chunk texts of `hlChunks`
reproduces the input. -/
theorem hlChunks_flatten (term : List Char) :
    ∀ (fuel : Nat) (cs : List Char), cs.length ≤ fuel →
      ((hlChunks fuel term cs).map Prod.fst).flatten = cs := by
  intro fuel
  induction fuel with
  | zero =>
    intro cs h
    have : cs = [] := List.eq_nil_of_length_eq_zero (Nat.le_zero.mp h)
    subst this; rfl
  | succ fuel ih =>
    intro cs h
    match cs with
    | [] => rfl
    | c :: rest =>
      rw [hlChunks]
      by_cases hm : (!term.isEmpty &&
          decide (lcL ((c :: rest).take term.length) = lcL term)) = true
      · rw [if_pos hm]
        have hm' := hm
        simp only [Bool.and_eq_true, Bool.not_eq_true', decide_eq_true_eq]
          at hm'
        have hterm : term.isEmpty = false := hm'.1
        have hlen : 1 ≤ term.length := by
          cases term with
          | nil => simp [List.isEmpty] at hterm
          | cons _ _ => simp
        have hdrop : ((c :: rest).drop term.length).length ≤ fuel := by
          rw [List.length_drop]
          omega
        simp only [List.map_cons, List.flatten_cons, ih _ hdrop]
        exact List.take_append_drop _ _
      · rw [if_neg hm]
        have hdrop : rest.length ≤ fuel := by
          simp only [List.length_cons] at h
          omega
        simp only [List.map_cons, List.flatten_cons, ih _ hdrop,
          List.singleton_append]

/-- Every chunk flagged as a match by `hlChunks` equals the search term up
to case. -/
theorem hlChunks_match_chunks (term : List Char) :
    ∀ (fuel : Nat) (cs : List Char) (p : List Char × Bool),
      p ∈ hlChunks fuel term cs → p.2 = true → lcL p.1 = lcL term := by
  intro fuel
  induction fuel with
  | zero => intro cs p hp; simp [hlChunks] at hp
  | succ fuel ih =>
    intro cs p hp htrue
    match cs with
    | [] => simp [hlChunks] at hp
    | c :: rest =>
      rw [hlChunks] at hp
      by_cases hm : (!term.isEmpty &&
          decide (lcL ((c :: rest).take term.length) = lcL term)) = true
      · rw [if_pos hm] at hp
        have hm' := hm
        simp only [Bool.and_eq_true, Bool.not_eq_true', decide_eq_true_eq]
          at hm'
        rcases List.mem_cons.mp hp with rfl | hp'
        · exact hm'.2
        · exact ih _ p hp' htrue
      · rw [if_neg hm] at hp
        rcases List.mem_cons.mp hp with rfl | hp'
        · simp at htrue
        · exact ih _ p hp' htrue

/-- The head of a list is a member. -/
theorem mem_of_head? {α : Type} {l : List α} {a : α} (h : l.head? = some a) :
    a ∈ l := by
  cases l with
  | nil => simp at h
  | cons b t =>
    simp only [List.head?_cons, Option.some.injEq] at h
    exact h ▸ List.mem_cons_self b t

/-- A successful field-clause match contains a colon. -/
theorem fieldMatch_has_colon {cs : List Char} {n : Nat}
    (h : fieldMatch cs = some n) : ':' ∈ cs := by
  unfold fieldMatch at h
  by_cases hw : (cs.takeWhile isWordChar).isEmpty = true
  · simp [hw] at h
  · rw [if_neg hw] at h
    split at h
    next heq => exact List.mem_of_mem_drop (mem_of_head? heq)
    next => simp at h

/-- With no colon in the input, the field-clause scan finds nothing (for
every fuel value). -/
theorem scanFields_eq_nil_of_no_colon :
    ∀ (fuel : Nat) (cs : List Char), ':' ∉ cs →
      scanFields fuel cs = [] := by
  intro fuel
  induction fuel with
  | zero => intro cs _; rfl
  | succ fuel ih =>
    intro cs h
    match cs with
    | [] => rfl
    | c :: rest =>
      rw [scanFields]
      cases hm : fieldMatch (c :: rest) with
      | some n => exact absurd (fieldMatch_has_colon hm) h
      | none =>
        exact ih rest (fun hmem => h (List.mem_cons_of_mem c hmem))

/-- `scanFields` on the empty string is empty. -/
theorem scanFields_nil (fuel : Nat) : scanFields fuel [] = [] := by
  cases fuel <;> rfl

/-- Characters produced by whitespace collapsing are spaces or input
characters. -/
theorem mem_collapseGo {c : Char} :
    ∀ (cs : List Char) (b : Bool), c ∈ collapseGo b cs →
      c = ' ' ∨ c ∈ cs := by
  intro cs
  induction cs with
  | nil => intro b h; simp [collapseGo] at h
  | cons a t ih =>
    intro b h
    rw [collapseGo] at h
    by_cases hws : isWs a = true
    · rw [if_pos hws] at h
      cases b with
      | true =>
        rcases ih true (by simpa using h) with h' | h'
        · exact Or.inl h'
        · exact Or.inr (List.mem_cons_of_mem a h')
      | false =>
        simp only [Bool.false_eq_true, if_false, List.mem_cons] at h
        rcases h with rfl | h'
        · exact Or.inl rfl
        · rcases ih true h' with h'' | h''
          · exact Or.inl h''
          · exact Or.inr (List.mem_cons_of_mem a h'')
    · rw [if_neg hws] at h
      rcases List.mem_cons.mp h with rfl | h'
      · exact Or.inr (List.mem_cons_self c t)
      · rcases ih false h' with h'' | h''
        · exact Or.inl h''
        · exact Or.inr (List.mem_cons_of_mem a h'')

/-- Characters of the trimmed list are input characters. -/
theorem mem_trimChars {c : Char} {cs : List Char} (h : c ∈ trimChars cs) :
    c ∈ cs := by
  unfold trimChars at h
  rw [List.mem_reverse] at h
  have h1 := (List.dropWhile_sublist (l := (cs.dropWhile isWs).reverse)
    (p := isWs)).mem h
  rw [List.mem_reverse] at h1
  exact (List.dropWhile_sublist (l := cs) (p := isWs)).mem h1

/-- Normalisation introduces no colon. -/
theorem no_colon_normalize {q : String} (h : ':' ∉ q.data) :
    ':' ∉ (normalize q).data := by
  intro hmem
  unfold normalize at hmem
  simp only [String.data] at hmem
  rcases mem_collapseGo _ _ hmem with h' | h'
  · exact absurd h' (by decide)
  · exact h (mem_trimChars h')

/-- The `&&`-accumulating per-item loop of `filter` computes the plain
conjunction described by the specification. -/
theorem itemMatches_eq_spec (q : ParsedQuery) (item : ContentItem) :
    itemMatches q item = itemMatchesSpec q item := by
  unfold itemMatches itemMatchesSpec
  simp only [foldl_and_eq_all, Bool.true_and]
  cases q.fullText with
  | none => simp [Bool.and_assoc]
  | some s =>
    by_cases hs : s = ""
    · simp [hs, Bool.and_assoc]
    · simp [hs, Bool.and_assoc]

/-- If no comparison character of the value is followed by a further
character, the date-clause regex does not match. -/
theorem dateMatchFn_eq_none :
    ∀ cs : List Char, (∀ c ∈ cs.dropLast, isOpChar c = false) →
      dateMatchFn cs = none := by
  intro cs
  induction cs with
  | nil => intro _; rfl
  | cons a t ih =>
    intro h
    cases t with
    | nil =>
      rw [dateMatchFn]
      by_cases ha : isOpChar a = true
      · simp [ha, List.takeWhile, dateMatchFn]
      · simp only [ha, Bool.false_eq_true, if_false]
        rfl
    | cons b u =>
      have hdl : (a :: b :: u).dropLast = a :: (b :: u).dropLast := rfl
      have ha : isOpChar a = false := by
        apply h
        rw [hdl]
        exact List.mem_cons_self _ _
      rw [dateMatchFn, ha]
      simp only [Bool.false_eq_true, if_false]
      apply ih
      intro c hc
      apply h
      rw [hdl]
      exact List.mem_cons_of_mem a hc

/-! ## Claim theorems -/

/-- C1 (counterexample): for the input `type:document AND tags:react` it
is *not* the case that `connectives` contains `AND` with `type ↦ document`
and `tags ↦ react`: the greedy clause value swallows ` AND`, so `type`
maps to `"document AND"` and no connective is recorded. -/
theorem c1_counterexample :
    ¬ ("AND" ∈ (parse "type:document AND tags:react").operators ∧
       ("type", FieldVal.str "document") ∈
         (parse "type:document AND tags:react").fields ∧
       ("tags", FieldVal.str "react") ∈
         (parse "type:document AND tags:react").fields) := by
  decide

/-- C1 (amended): `parse('type:document AND tags:react')` yields a fields
map containing both `type` and `tags`, but with `type ↦ "document AND"`
(the clause value extends up to the next `word:` marker, absorbing the
connective), `tags ↦ "react"`, an *empty* connectives sequence, and no
full text. -/
theorem c1_amended :
    parse "type:document AND tags:react" =
      { fields := [("type", FieldVal.str "document AND"),
                   ("tags", FieldVal.str "react")],
        operators := [],
        fullText := none,
        dateFilters := some [] } := by
  decide

/-- C2 (counterexample): for the empty query the no-field-clause branch
stores the normalised query as `fullText` unconditionally, so `fullText`
is the *present empty string*, not absent. -/
theorem c2_counterexample : (parse "").fullText = some "" := by
  decide

/-- C2 (amended): `fields`, `connectives` and `dateFilters` are never
null (`dateFilters`, the only optional container, is always present), and
`fullText` is the empty string exactly for inputs that normalise to the
empty string (empty or whitespace-only queries, which take the
no-field-clause branch); in every other case an empty residue leaves
`fullText` absent. -/
theorem c2_amended (q : String) :
    (parse q).dateFilters.isSome = true ∧
      ((parse q).fullText = some "" ↔ normalize q = "") := by
  have hrest : ∀ (nq : String) (ms : List String),
      (parseRest nq ms).fullText = none ∨
        ∃ s, (parseRest nq ms).fullText = some s ∧ s ≠ "" := by
    intro nq ms
    unfold parseRest
    dsimp only
    split
    all_goals
      split
      next hcond => exact Or.inr ⟨_, rfl, hcond⟩
      next => exact Or.inl rfl
  constructor
  · unfold parse
    dsimp only
    split
    · rfl
    · unfold parseRest
      dsimp only
      rfl
  · constructor
    · intro hft
      revert hft
      unfold parse
      dsimp only
      split
      next h =>
        intro hft
        simpa using hft
      next h =>
        intro hft
        rcases hrest (normalize q)
            ((scanFields ((normalize q).data.length + 1)
              (normalize q).data).map String.mk) with hn | ⟨s, hs, hne⟩
        · rw [hn] at hft; exact absurd hft (by simp)
        · rw [hs] at hft
          have hse : s = "" := by simpa using hft
          exact absurd hse hne
    · intro hnq
      unfold parse
      rw [hnq]
      rfl

/-- C2 (witness): at `q = "   "` the amended claim instantiates to a true
closed fact: `dateFilters` is present and `fullText = some ""` holds
because the whitespace-only query normalises to the empty string. -/
theorem c2_witness :
    (parse "   ").dateFilters.isSome = true ∧
      (parse "   ").fullText = some "" :=
  ⟨(c2_amended "   ").1, ((c2_amended "   ").2).mpr (by decide)⟩

/-- C3 (counterexample): on `bogus:x bogus:y` the offending field `bogus`
is reported *twice* — the error message is not deduplicated, contrary to
the claim (`claimMsgDedup` is the message the claim describes). -/
theorem c3_counterexample :
    (validateQuery "bogus:x bogus:y").1 = false ∧
    (validateQuery "bogus:x bogus:y").2 =
      some ("Invalid field(s): bogus, bogus. " ++
            "Valid fields: title, content, tags, type, created, updated") ∧
    (validateQuery "bogus:x bogus:y").2 ≠
      some (claimMsgDedup "bogus:x bogus:y") := by
  decide

/-- C3 (amended): for every non-empty query with balanced double quotes
containing at least one `word:` pattern whose field name is outside the
allowed set, `validateQuery` returns invalid with a message listing every
offending *occurrence* in match order (duplicates are not removed)
together with the full allowed set. -/
theorem c3_amended (q : String) (h1 : jsTrim q ≠ "")
    (h2 : (q.data.filter (fun c => c = '"')).length % 2 = 0)
    (h3 : invalidFieldsOf q ≠ []) :
    validateQuery q =
      (false,
       some ("Invalid field(s): " ++
               String.intercalate ", " (invalidFieldsOf q) ++
             ". Valid fields: " ++ String.intercalate ", " validFields)) := by
  unfold validateQuery
  rw [if_neg h1, if_neg (fun hc => hc h2)]
  have he : (invalidFieldsOf q).isEmpty = false := by
    cases hx : invalidFieldsOf q with
    | nil => exact absurd hx h3
    | cons a t => rfl
  simp only [he, Bool.not_false, if_true]

/-- C3 (witness): the amended claim applied to the concrete query
`bogus:x bogus:y`. -/
theorem c3_witness :
    validateQuery "bogus:x bogus:y" =
      (false,
       some ("Invalid field(s): " ++
               String.intercalate ", " (invalidFieldsOf "bogus:x bogus:y") ++
             ". Valid fields: " ++ String.intercalate ", " validFields)) :=
  c3_amended "bogus:x bogus:y" (by decide) (by decide) (by decide)

/-- C6 (counterexample): the comparison-operator search is unanchored, so
the clause `created:x>2024` — whose value does *not* begin with a
comparison character — still produces a date filter (operator `>`, value
`2024`) instead of being dropped. -/
theorem c6_counterexample :
    isOpChar 'x' = false ∧
    (parse "created:x>2024").dateFilters =
      some [{ field := "created", operator := ">", value := "2024" }] := by
  decide

/-- C6 (amended): a `created:`/`updated:` clause is silently dropped —
no `dateFilters` entry, no `fields` entry, no error — exactly when its
value contains no comparison character that is followed by at least one
further character (the regex `([><=!]+)(.+)` is unanchored, so a
comparison character anywhere except the last position produces a
filter); `parse` is total by construction, so no input raises. -/
theorem c6_amended (fields : List (String × FieldVal))
    (dfs : List DateFilter) (m : String)
    (h1 : clauseField m = "created" ∨ clauseField m = "updated")
    (h2 : ∀ c ∈ (clauseValue m).data.dropLast, isOpChar c = false) :
    classifyMatch (fields, dfs) m = (fields, dfs) := by
  unfold classifyMatch
  simp only
  rw [if_pos h1, dateMatchFn_eq_none _ h2]

/-- C6 (witness): the clause `created:hello` (no comparison character at
all) is dropped by the classifier. -/
theorem c6_witness : classifyMatch ([], []) "created:hello" = ([], []) :=
  c6_amended [] [] "created:hello" (Or.inl (by decide)) (by decide)

/-- C4: for every query without a `:` character the scan finds no clause,
so `parse` takes the no-field branch: `fields` is empty, `connectives` is
empty (no connective scanning happens there), and `fullText` is the
trimmed, whitespace-normalised query when that is non-empty. -/
theorem c4_no_colon (q : String) (h : ':' ∉ q.data) :
    (parse q).fields = [] ∧ (parse q).operators = [] ∧
      (normalize q ≠ "" → (parse q).fullText = some (normalize q)) := by
  have hsf : scanFields ((normalize q).data.length + 1) (normalize q).data
      = [] :=
    scanFields_eq_nil_of_no_colon _ _ (no_colon_normalize h)
  unfold parse
  dsimp only
  rw [hsf]
  exact ⟨rfl, rfl, fun _ => rfl⟩

/-- C4 (witness): the colon-free query `hello world`. -/
theorem c4_witness :
    (':' ∉ "hello world".data) ∧ (parse "hello world").fields = [] ∧
      (parse "hello world").operators = [] ∧
      (parse "hello world").fullText = some (normalize "hello world") :=
  ⟨by decide, (c4_no_colon "hello world" (by decide)).1,
   (c4_no_colon "hello world" (by decide)).2.1,
   (c4_no_colon "hello world" (by decide)).2.2 (by decide)⟩

/-- C5: `filter` keeps exactly the records satisfying the conjunction of
the active predicates (one per `fields` entry, one per `dateFilters`
entry, one for a non-empty `fullText`), preserves the relative record
order (the result is a sublist of the input; the model is a pure
function, so nothing is mutated), and an entirely empty query returns
every record. -/
theorem c5_filter_spec (items : List ContentItem) (q : ParsedQuery) :
    (∀ it, it ∈ filter items q ↔ it ∈ items ∧ itemMatchesSpec q it = true) ∧
    (filter items q).Sublist items ∧
    (q.fields = [] → q.dateFilters.getD [] = [] → q.fullText = none →
      filter items q = items) := by
  refine ⟨?_, ?_, ?_⟩
  · intro it
    unfold filter
    rw [List.mem_filter, itemMatches_eq_spec]
  · exact List.filter_sublist items
  · intro h1 h2 h3
    unfold filter
    apply List.filter_eq_self.mpr
    intro a _
    rw [itemMatches_eq_spec]
    unfold itemMatchesSpec
    rw [h1, h2, h3]
    rfl

/-- C5 (witness): the empty query keeps both sample records. -/
theorem c5_witness :
    filter [item₁, item₂] ⟨[], [], none, some []⟩ = [item₁, item₂] :=
  (c5_filter_spec [item₁, item₂] ⟨[], [], none, some []⟩).2.2 rfl rfl rfl

/-- C9: `filter` is idempotent — filtering an already-filtered collection
with the same parsed query changes nothing. -/
theorem c9_filter_idem (items : List ContentItem) (q : ParsedQuery) :
    filter (filter items q) q = filter items q := by
  unfold filter
  exact filter_idem _ items

/-- C10: a record without a `content` body is never constrained by a
`content:` clause — the `content` entry contributes no predicate
(`item.content` is falsy, so the `&&`-guard skips it), and evaluation
coincides with evaluating the query with all `content` entries removed. -/
theorem c10_absent_content (item : ContentItem) (h : item.content = none) :
    (∀ v, fieldEntryPred item "content" v = true) ∧
    (∀ q : ParsedQuery,
      itemMatches q item =
        itemMatches
          { q with fields := q.fields.filter (fun e => e.1 ≠ "content") }
          item) := by
  have hpred : ∀ v, fieldEntryPred item "content" v = true := by
    intro v
    unfold fieldEntryPred
    rw [if_neg (by decide), if_pos rfl]
    cases v with
    | str s => rw [h]
    | arr l => rfl
  refine ⟨hpred, ?_⟩
  intro q
  rw [itemMatches_eq_spec, itemMatches_eq_spec]
  unfold itemMatchesSpec
  dsimp only
  rw [all_of_filter (fun fv => fieldEntryPred item fv.1 fv.2)
      (fun e => decide (e.1 ≠ "content")) q.fields ?_]
  intro x _ hx
  have hx1 : x.1 = "content" := by simpa using hx
  show fieldEntryPred item x.1 x.2 = true
  rw [hx1]
  exact hpred x.2

/-- C10 (witness): the content-free record `item₁` and a query with a
`content:` clause. -/
theorem c10_witness :
    fieldEntryPred item₁ "content" (FieldVal.str "design") = true ∧
    itemMatches ⟨[("content", FieldVal.str "design")], [], none, some []⟩
        item₁ =
      itemMatches
        { (⟨[("content", FieldVal.str "design")], [], none, some []⟩ :
            ParsedQuery) with
          fields := (⟨[("content", FieldVal.str "design")], [], none,
            some []⟩ : ParsedQuery).fields.filter
              (fun e => e.1 ≠ "content") }
        item₁ :=
  ⟨(c10_absent_content item₁ rfl).1 (FieldVal.str "design"),
   (c10_absent_content item₁ rfl).2
     ⟨[("content", FieldVal.str "design")], [], none, some []⟩⟩

/-- C7: `highlight` returns the text unchanged on the empty term; on a
non-empty term the output is the chunk decomposition rendered with the
marker, where the chunk texts concatenate to exactly the input (so
non-matching text is unaltered and each match keeps its original casing)
and every match-flagged chunk equals the literal term up to case. -/
theorem c7_highlight (text term : String) :
    (term = "" → highlight text term = text) ∧
    (term ≠ "" →
      ((hlChunks (text.data.length + 1) term.data text.data).map
          Prod.fst).flatten = text.data ∧
      (∀ p ∈ hlChunks (text.data.length + 1) term.data text.data,
        p.2 = true → lcL p.1 = lcL term.data) ∧
      highlight text term =
        String.mk (((hlChunks (text.data.length + 1) term.data
          text.data).map renderChunk).flatten)) := by
  constructor
  · intro h
    unfold highlight
    rw [if_pos h]
  · intro h
    refine ⟨hlChunks_flatten term.data _ _ (Nat.le_succ _),
            fun p hp ht => hlChunks_match_chunks term.data _ _ p hp ht, ?_⟩
    unfold highlight
    rw [if_neg h]

/-- C7 (witness): highlighting `world` inside `Hello World`. -/
theorem c7_witness :
    ((hlChunks ("Hello World".data.length + 1) "world".data
        "Hello World".data).map Prod.fst).flatten = "Hello World".data ∧
    highlight "Hello World" "world" =
      String.mk (((hlChunks ("Hello World".data.length + 1) "world".data
        "Hello World".data).map renderChunk).flatten) :=
  ⟨((c7_highlight "Hello World" "world").2 (by decide)).1,
   ((c7_highlight "Hello World" "world").2 (by decide)).2.2⟩

/-- C8: `getSuggestions` is empty when the last whitespace-delimited token
of the query is shorter than two characters; otherwise it is the
concatenation titles-then-tags-then-types truncated to ten entries, each
group formed from the first-occurrence-deduplicated values in collection
order (`uniqueFirst` keeps a duplicate-free subsequence of its input). -/
theorem c8_suggestions (query : String) (items : List ContentItem) :
    ((lower ((jsSplitWs query).getLast?.getD "")).length < 2 →
      getSuggestions query items = []) ∧
    (getSuggestions query items).length ≤ 10 ∧
    (¬ (lower ((jsSplitWs query).getLast?.getD "")).length < 2 →
      getSuggestions query items =
        (titleSuggs (lower ((jsSplitWs query).getLast?.getD "")) items ++
         tagSuggs (lower ((jsSplitWs query).getLast?.getD "")) items ++
         typeSuggs (lower ((jsSplitWs query).getLast?.getD "")) items).take
          10) ∧
    (∀ xs : List String, (uniqueFirst xs).Sublist xs ∧ (uniqueFirst xs).Nodup) := by
  refine ⟨?_, ?_, ?_,
    fun xs => ⟨uniqueFirstGo_sublist xs [], uniqueFirstGo_nodup xs []⟩⟩
  · intro h
    unfold getSuggestions
    dsimp only
    rw [if_pos h]
  · unfold getSuggestions
    dsimp only
    split
    · simp
    · exact List.length_take_le 10 _
  · intro h
    unfold getSuggestions
    dsimp only
    rw [if_neg h]
    rw [push_fold, push_fold, push_fold]
    unfold titleSuggs tagSuggs typeSuggs
    simp [List.append_assoc]

/-- C8 (witness): a one-character token yields nothing; the token `rea`
yields the capped ordered concatenation on the sample records. -/
theorem c8_witness :
    getSuggestions "a" [item₁, item₂] = [] ∧
    (getSuggestions "rea" [item₁, item₂]).length ≤ 10 ∧
    getSuggestions "rea" [item₁, item₂] =
      (titleSuggs (lower ((jsSplitWs "rea").getLast?.getD ""))
          [item₁, item₂] ++
       tagSuggs (lower ((jsSplitWs "rea").getLast?.getD ""))
          [item₁, item₂] ++
       typeSuggs (lower ((jsSplitWs "rea").getLast?.getD ""))
          [item₁, item₂]).take 10 :=
  ⟨(c8_suggestions "a" [item₁, item₂]).1 (by decide),
   (c8_suggestions "rea" [item₁, item₂]).2.1,
   (c8_suggestions "rea" [item₁, item₂]).2.2.1 (by decide)⟩

end PKM
